import Mathlib

/-!
# Verification of the Best-Golf-City consolidation-and-scoring pipeline

Shallow embedding of the repository sources:

* scripts/consolidate_data.py  — capture reading, freshest-wins deduplication,
  atomic Parquet/NDJSON publication;
* eda/compute_city_metrics.py  — dedup, region aggregation, golfability
  enrichment, min-max scaling, weighted composite scoring, dense ranking,
  output writing.

Modelling conventions:

* pandas float columns are modelled as rational numbers (ℚ); a missing value
  (NaN) is modelled as Option.none where the code can observe it.
* timestamps (the result of pandas to_datetime on the ISO-8601 fetched_at
  strings) are modelled as Option ℤ: some epoch instant, or none when the
  string is missing or unparseable (NaT).
* pandas sort_values is modelled as a stable insertion sort on the sort key
  (sortByLe below); the relative order of rows with equal keys is kept.
* Python string comparison (used by sorted() on file names) is lexicographic
  on code points; strLt below implements exactly that on the char lists.
-/

/-! ## Generic list helpers -/

/-- Sum-defaulting association-list lookup: Python dict.get(k, 0). -/
def lookupD (k : String) : List (String × ℚ) → ℚ
  | [] => 0
  | (k2, v) :: t => if k = k2 then v else lookupD k t

/-- The non-null values of an optional column, in order (pandas dropna view). -/
def somes {α : Type} (l : List (Option α)) : List α := l.filterMap id

/-! ## Stable insertion sort (model of pandas sort_values / Python sorted) -/

/-- Insert a before the first element x with le a x; elements strictly
before that point compare strictly greater than a. -/
def insertLe {α : Type} (le : α → α → Bool) (a : α) : List α → List α
  | [] => [a]
  | x :: t => if le a x then a :: x :: t else x :: insertLe le a t

/-- Stable sort: the head is inserted into the sorted tail, so an element
earlier in the input ends up before later elements with an equal key. -/
def sortByLe {α : Type} (le : α → α → Bool) : List α → List α
  | [] => []
  | a :: t => insertLe le a (sortByLe le t)

theorem perm_insertLe {α : Type} (le : α → α → Bool) (a : α) (s : List α) :
    (insertLe le a s).Perm (a :: s) := by
  induction s with
  | nil => simp [insertLe]
  | cons x t ih =>
    by_cases h : le a x
    · simp [insertLe, h]
    · simp only [insertLe, h, Bool.false_eq_true, if_false]
      exact ((ih.cons x).trans (List.Perm.swap a x t))

theorem perm_sortByLe {α : Type} (le : α → α → Bool) (l : List α) :
    (sortByLe le l).Perm l := by
  induction l with
  | nil => simp [sortByLe]
  | cons a t ih =>
    exact (perm_insertLe le a (sortByLe le t)).trans (ih.cons a)

theorem mem_insertLe {α : Type} (le : α → α → Bool) (a b : α) (s : List α) :
    b ∈ insertLe le a s ↔ b = a ∨ b ∈ s := by
  rw [(perm_insertLe le a s).mem_iff, List.mem_cons]

theorem length_sortByLe {α : Type} (le : α → α → Bool) (l : List α) :
    (sortByLe le l).length = l.length :=
  (perm_sortByLe le l).length_eq

theorem pairwise_insertLe {α : Type} (le : α → α → Bool)
    (htot : ∀ x y, le x y = true ∨ le y x = true)
    (htr : ∀ x y z, le x y = true → le y z = true → le x z = true)
    (a : α) (s : List α) (hs : List.Pairwise (fun x y => le x y = true) s) :
    List.Pairwise (fun x y => le x y = true) (insertLe le a s) := by
  induction s with
  | nil => simp [insertLe]
  | cons x t ih =>
    rcases List.pairwise_cons.mp hs with ⟨hx, ht⟩
    by_cases h : le a x
    · simp only [insertLe, h, if_true]
      refine List.pairwise_cons.mpr ⟨?_, hs⟩
      intro b hb
      rcases List.mem_cons.mp hb with rfl | hbt
      · exact h
      · exact htr a x b h (hx b hbt)
    · simp only [insertLe, h, Bool.false_eq_true, if_false]
      refine List.pairwise_cons.mpr ⟨?_, ih ht⟩
      intro b hb
      rcases (mem_insertLe le a b t).mp hb with rfl | hbt
      · rcases htot b x with hbx | hxb
        · exact absurd hbx h
        · exact hxb
      · exact hx b hbt

theorem pairwise_sortByLe {α : Type} (le : α → α → Bool)
    (htot : ∀ x y, le x y = true ∨ le y x = true)
    (htr : ∀ x y z, le x y = true → le y z = true → le x z = true)
    (l : List α) :
    List.Pairwise (fun x y => le x y = true) (sortByLe le l) := by
  induction l with
  | nil => simp [sortByLe]
  | cons a t ih => exact pairwise_insertLe le htot htr a (sortByLe le t) ih

theorem filter_insertLe {α : Type} (le : α → α → Bool) (p : α → Bool)
    (hcomp : ∀ x y, p x = true → p y = true → le x y = true)
    (a : α) (s : List α) :
    List.filter p (insertLe le a s) =
      if p a then a :: List.filter p s else List.filter p s := by
  induction s with
  | nil => cases hpa : p a <;> simp [insertLe, List.filter_cons, hpa]
  | cons x t ih =>
    by_cases hax : le a x
    · simp only [insertLe, hax, if_true]
      by_cases hpa : p a <;> simp [List.filter_cons, hpa]
    · simp only [insertLe, hax, Bool.false_eq_true, if_false]
      by_cases hpx : p x
      · have hpa : p a = false := by
          by_contra hne
          exact hax (hcomp a x (Bool.of_not_eq_false hne) hpx)
        simp [List.filter_cons, hpx, hpa, ih]
      · simp only [List.filter_cons, hpx, Bool.false_eq_true, if_false, ih]

theorem filter_sortByLe {α : Type} (le : α → α → Bool) (p : α → Bool)
    (hcomp : ∀ x y, p x = true → p y = true → le x y = true)
    (l : List α) :
    List.filter p (sortByLe le l) = List.filter p l := by
  induction l with
  | nil => simp [sortByLe]
  | cons a t ih =>
    rw [sortByLe, filter_insertLe le p hcomp, List.filter_cons]
    by_cases hpa : p a <;> simp [hpa, ih]

/-- Two permuted lists, both sorted for the same le whose two-sided
comparability forces equal keys, and whose keys are distinct, coincide. -/
theorem eq_of_perm_of_pairwise {α β : Type} (le : α → α → Bool) (key : α → β)
    (hanti : ∀ x y, le x y = true → le y x = true → key x = key y) :
    ∀ (l₁ l₂ : List α), l₁.Perm l₂ →
      List.Pairwise (fun x y => le x y = true) l₁ →
      List.Pairwise (fun x y => le x y = true) l₂ →
      (l₁.map key).Nodup → l₁ = l₂ := by
  intro l₁
  induction l₁ with
  | nil =>
    intro l₂ h _ _ _
    exact (h.symm.eq_nil).symm
  | cons a t₁ ih =>
    intro l₂ h h₁ h₂ hnd
    cases l₂ with
    | nil => exact absurd h.eq_nil (by simp)
    | cons b t₂ =>
      rcases List.pairwise_cons.mp h₁ with ⟨ha, ht₁⟩
      rcases List.pairwise_cons.mp h₂ with ⟨hb, ht₂⟩
      by_cases hab : a = b
      · subst hab
        have hperm : t₁.Perm t₂ := (List.perm_cons a).mp h
        have hnd' : (t₁.map key).Nodup := (List.nodup_cons.mp (by simpa using hnd)).2
        rw [ih t₂ hperm ht₁ ht₂ hnd']
      · exfalso
        have hbmem : b ∈ a :: t₁ := h.symm.mem_iff.mp (List.mem_cons_self b t₂)
        have hbt₁ : b ∈ t₁ := by
          rcases List.mem_cons.mp hbmem with heq | hm
          · exact absurd heq.symm hab
          · exact hm
        have hamem : a ∈ b :: t₂ := h.mem_iff.mp (List.mem_cons_self a t₁)
        have hat₂ : a ∈ t₂ := by
          rcases List.mem_cons.mp hamem with heq | hm
          · exact absurd heq hab
          · exact hm
        have hk : key a = key b := hanti a b (ha b hbt₁) (hb a hat₂)
        have : key a ∉ t₁.map key := (List.nodup_cons.mp (by simpa using hnd)).1
        exact this (hk ▸ List.mem_map_of_mem key hbt₁)

/-! ## Python string order (code-point lexicographic), kernel-computable -/

/-- Strict lexicographic order on char lists by code point, exactly the
order Python uses to compare str values (and hence what sorted() uses on
the capture file names). -/
def strLtAux : List Char → List Char → Bool
  | [], [] => false
  | [], _ :: _ => true
  | _ :: _, [] => false
  | a :: s, b :: t =>
    if a.toNat < b.toNat then true
    else if b.toNat < a.toNat then false
    else strLtAux s t

def strLt (a b : String) : Bool := strLtAux a.data b.data

def strLe (a b : String) : Bool := !(strLt b a)

theorem strLtAux_trans : ∀ x y z, strLtAux x y = true → strLtAux y z = true →
    strLtAux x z = true := by
  intro x
  induction x with
  | nil =>
    intro y z hxy hyz
    cases y with
    | nil => simp [strLtAux] at hxy
    | cons b t =>
      cases z with
      | nil => simp [strLtAux] at hyz
      | cons c u => simp [strLtAux]
  | cons a s ih =>
    intro y z hxy hyz
    cases y with
    | nil => simp [strLtAux] at hxy
    | cons b t =>
      cases z with
      | nil => simp [strLtAux] at hyz
      | cons c u =>
        simp only [strLtAux] at hxy hyz ⊢
        rcases Nat.lt_trichotomy a.toNat b.toNat with hab | hab | hab
        · rcases Nat.lt_trichotomy b.toNat c.toNat with hbc | hbc | hbc
          · simp [Nat.lt_trans hab hbc]
          · simp [hbc ▸ hab]
          · -- b > c: hyz forces contradiction
            simp [Nat.lt_asymm hbc, hbc] at hyz
        · rw [hab] at hxy ⊢
          simp only [Nat.lt_irrefl, if_false] at hxy
          rcases Nat.lt_trichotomy b.toNat c.toNat with hbc | hbc | hbc
          · simp [hbc]
          · simp only [hbc, Nat.lt_irrefl, if_false] at hyz ⊢
            exact ih t u hxy hyz
          · simp [Nat.lt_asymm hbc, hbc] at hyz
        · simp [Nat.lt_asymm hab, hab] at hxy

theorem strLtAux_irrefl : ∀ x, strLtAux x x = false := by
  intro x
  induction x with
  | nil => rfl
  | cons a s ih => simp [strLtAux, ih]

theorem strLtAux_trichotomy : ∀ x y, strLtAux x y = true ∨ strLtAux y x = true ∨ x = y := by
  intro x
  induction x with
  | nil =>
    intro y
    cases y with
    | nil => right; right; rfl
    | cons b t => left; rfl
  | cons a s ih =>
    intro y
    cases y with
    | nil => right; left; rfl
    | cons b t =>
      rcases Nat.lt_trichotomy a.toNat b.toNat with hab | hab | hab
      · left; simp [strLtAux, hab]
      · have hch : a = b := Char.ext (UInt32.toNat.inj hab)
        subst hch
        rcases ih t with h1 | h2 | h3
        · left; simp [strLtAux, h1]
        · right; left; simp [strLtAux, h2]
        · right; right; rw [h3]
      · right; left; simp [strLtAux, hab]

theorem strLe_total (a b : String) : strLe a b = true ∨ strLe b a = true := by
  by_contra hcon
  push_neg at hcon
  rcases hcon with ⟨h1, h2⟩
  simp only [strLe, Bool.not_eq_true, Bool.not_eq_true', strLt] at h1 h2
  have h1' : strLtAux b.data a.data = true := by
    revert h1; cases strLtAux b.data a.data <;> simp
  have h2' : strLtAux a.data b.data = true := by
    revert h2; cases strLtAux a.data b.data <;> simp
  have := strLtAux_trans _ _ _ h1' h2'
  rw [strLtAux_irrefl] at this
  exact Bool.false_ne_true this

theorem strLe_trans (a b c : String) (hab : strLe a b = true) (hbc : strLe b c = true) :
    strLe a c = true := by
  simp only [strLe, strLt, Bool.not_eq_true'] at hab hbc ⊢
  by_contra hca
  have hca' : strLtAux c.data a.data = true := by
    revert hca; cases strLtAux c.data a.data <;> simp
  rcases strLtAux_trichotomy a.data b.data with h1 | h2 | h3
  · have := strLtAux_trans _ _ _ hca' h1
    simp [this] at hbc
  · simp [h2] at hab
  · rw [h3] at hca'
    simp [hca'] at hbc

theorem strLe_antisymm (a b : String) (hab : strLe a b = true) (hba : strLe b a = true) :
    a = b := by
  simp only [strLe, strLt, Bool.not_eq_true'] at hab hba
  rcases strLtAux_trichotomy a.data b.data with h1 | h2 | h3
  · simp [h1] at hba
  · simp [h2] at hab
  · exact String.ext h3

/-! ## File-system model and the writers (claim C4)

consolidate_data.py publishes through to_parquet_atomic and
to_ndjson_atomic (temporary file in the destination directory followed by
os.replace), while compute_city_metrics.py main calls metrics.to_parquet
and metrics.to_csv directly on the destination paths. -/

inductive FsOp where
  | write (path content : String)
  | rename (src dst : String)
deriving DecidableEq

/-- A file system: association list from path to content (latest first). -/
def FS := List (String × String)

def lookupFS : FS → String → Option String
  | [], _ => none
  | (q, c) :: t, p => if p = q then some c else lookupFS t p

def setFS (fs : FS) (p c : String) : FS := (p, c) :: fs

def delFS (fs : FS) (p : String) : FS :=
  fs.filter (fun e => !(decide (e.1 = p)))

/-- One completed operation.  os.replace atomically moves src onto dst
(overwriting dst); a plain write replaces the content at path. -/
def runOp (fs : FS) : FsOp → FS
  | FsOp.write p c => setFS fs p c
  | FsOp.rename s d =>
    match lookupFS fs s with
    | some c => setFS (delFS fs s) d c
    | none => fs

def runOps (fs : FS) (ops : List FsOp) : FS := ops.foldl runOp fs

/-- A run that executed the first i operations and then failed.  If the
operation in flight was a plain write, the failure can leave arbitrary torn
content at that path; os.replace is atomic and is never observed half-done. -/
def runCrash (fs : FS) (ops : List FsOp) (i : ℕ) (torn : Option String) : FS :=
  let fs2 := runOps fs (ops.take i)
  match ops.drop i, torn with
  | FsOp.write p _ :: _, some c => setFS fs2 p c
  | _, _ => fs2

/-- to_parquet_atomic: df.to_parquet(tmp_name) for a NamedTemporaryFile
created in os.path.dirname(out_path), then os.replace(tmp_name, out_path). -/
def toParquetAtomicOps (tmp dest content : String) : List FsOp :=
  [FsOp.write tmp content, FsOp.rename tmp dest]

/-- to_ndjson_atomic: tmp = out_path + ".tmp", write all records, then
os.replace(tmp, out_path). -/
def toNdjsonAtomicOps (dest content : String) : List FsOp :=
  [FsOp.write (dest ++ ".tmp") content, FsOp.rename (dest ++ ".tmp") dest]

/-- compute_city_metrics.py main: metrics.to_parquet(args.output) and
metrics.to_csv(args.csv_out), each a direct write to the destination path. -/
def metricsWriteOps (outputPath csvPath parquetBytes csvBytes : String) : List FsOp :=
  [FsOp.write outputPath parquetBytes, FsOp.write csvPath csvBytes]

theorem lookupFS_setFS_ne (fs : FS) (p c q : String) (h : q ≠ p) :
    lookupFS (setFS fs p c) q = lookupFS fs q := by
  simp [setFS, lookupFS, h]

theorem append_tmp_ne (s : String) : s ++ ".tmp" ≠ s := by
  intro h
  have hlen : (s ++ ".tmp").length = s.length := congrArg String.length h
  rw [String.length_append] at hlen
  have h4 : (".tmp" : String).length = 4 := by decide
  omega

/-- C4 counterexample: the claim says every output write, including the
flat tabular (CSV) export, is atomic (temp file plus rename, destination
untouched on failure).  But compute_city_metrics.py main writes the CSV
directly with metrics.to_csv(args.csv_out): a failure in the middle of
that write leaves torn content at the destination and the prior version
does not survive. -/
theorem c4_counterexample :
    lookupFS
      (runCrash [("outputs/city_golf_metrics.csv", "old")]
        (metricsWriteOps "data/processed/city_golf_metrics.parquet"
          "outputs/city_golf_metrics.csv" "pq-bytes" "csv-bytes") 1 (some "torn-half"))
      "outputs/city_golf_metrics.csv" ≠ some "old" := by decide

/-- C4 amended: the consolidation-stage writers to_parquet_atomic and
to_ndjson_atomic are atomic — they write to a temporary file in the same
directory and then os.replace it onto the destination, so any failure
before completion (crash after i of the 2 steps, possibly tearing a plain
write in flight) leaves the destination exactly as it was.  The
metrics-stage Parquet and CSV writes are direct and have no such guarantee
(see the counterexample). -/
theorem c4_consolidate_writes_atomic (fs : FS) (tmp dest content : String)
    (hne : tmp ≠ dest) (i : ℕ) (hi : i < 2) (torn : Option String) :
    lookupFS (runCrash fs (toParquetAtomicOps tmp dest content) i torn) dest
        = lookupFS fs dest ∧
      lookupFS (runCrash fs (toNdjsonAtomicOps dest content) i torn) dest
        = lookupFS fs dest := by
  have hne2 : dest ≠ tmp := Ne.symm hne
  have hne3 : dest ≠ dest ++ ".tmp" := Ne.symm (append_tmp_ne dest)
  have hcases : i = 0 ∨ i = 1 := by omega
  rcases hcases with rfl | rfl
  · constructor
    · cases torn with
      | none => simp [runCrash, toParquetAtomicOps, runOps]
      | some c =>
        simp only [runCrash, toParquetAtomicOps, List.take, List.drop]
        exact lookupFS_setFS_ne _ _ _ _ hne2
    · cases torn with
      | none => simp [runCrash, toNdjsonAtomicOps, runOps]
      | some c =>
        simp only [runCrash, toNdjsonAtomicOps, List.take, List.drop]
        exact lookupFS_setFS_ne _ _ _ _ hne3
  · constructor
    · have : lookupFS (runCrash fs (toParquetAtomicOps tmp dest content) 1 torn) dest
          = lookupFS (setFS fs tmp content) dest := by
        cases torn <;>
          simp [runCrash, toParquetAtomicOps, runOps, List.take, List.drop, runOp]
      rw [this]
      exact lookupFS_setFS_ne _ _ _ _ hne2
    · have : lookupFS (runCrash fs (toNdjsonAtomicOps dest content) 1 torn) dest
          = lookupFS (setFS fs (dest ++ ".tmp") content) dest := by
        cases torn <;>
          simp [runCrash, toNdjsonAtomicOps, runOps, List.take, List.drop, runOp]
      rw [this]
      exact lookupFS_setFS_ne _ _ _ _ hne3

/-- Witness for c4_consolidate_writes_atomic at a concrete file system,
temporary name, crash point and torn content. -/
theorem c4_consolidate_writes_atomic_witness :
    (("tmp123.parquet" : String) ≠ "out.parquet") ∧ (0 : ℕ) < 2 ∧
      (lookupFS (runCrash [("out.parquet", "old")]
            (toParquetAtomicOps "tmp123.parquet" "out.parquet" "new") 0 (some "torn"))
          "out.parquet" = lookupFS [("out.parquet", "old")] "out.parquet" ∧
        lookupFS (runCrash [("out.parquet", "old")]
            (toNdjsonAtomicOps "out.parquet" "new") 0 (some "torn"))
          "out.parquet" = lookupFS [("out.parquet", "old")] "out.parquet") :=
  ⟨by decide, by decide,
    c4_consolidate_writes_atomic [("out.parquet", "old")] "tmp123.parquet"
      "out.parquet" "new" (by decide) 0 (by decide) (some "torn")⟩

/-! ## consolidate_data.py: capture reading and deduplication

A capture file is the parsed envelope fetched_at / offset / payload.courses.
The envelope fetched_at is carried as the value that pandas to_datetime
later produces from the ISO-8601 string: some epoch instant, or none when
missing or unparseable (NaT).  Course fields are carried as the values that
pandas to_numeric later produces: some rational, or none for missing or
invalid raw values.  A field that is none is treated as an absent column
contribution (a key present with a null value is modelled the same way). -/

structure RawCourse where
  course_id : Option String
  name : Option String
  city : Option String
  state : Option String
  rating : Option ℚ
  ratings_count : Option ℚ
  tee_fee : Option ℚ
  length_yards : Option ℚ
deriving DecidableEq

structure CaptureFile where
  name : String
  fetched_at : Option ℤ
  offset : Option ℤ
  courses : List RawCourse
deriving DecidableEq

/-- A flat course row after read_raw_courses attached the provenance
metadata of its envelope. -/
structure CourseRow where
  course_id : Option String
  name : Option String
  city : Option String
  state : Option String
  rating : Option ℚ
  ratings_count : Option ℚ
  tee_fee : Option ℚ
  length_yards : Option ℚ
  fetched_at : Option ℤ
  offset : Option ℤ
  raw_file : String
deriving DecidableEq

def listStarts : List Char → List Char → Bool
  | [], _ => true
  | _ :: _, [] => false
  | a :: s, b :: t => decide (a = b) && listStarts s t

/-- The glob pattern teeradar_page_*.json: the star matches any run of
characters, so a name matches exactly when it begins with teeradar_page_
and ends with .json (the fixed parts cannot overlap because the 14th
character would have to be both an underscore and a dot). -/
def matchesCaptureName (s : String) : Bool :=
  listStarts "teeradar_page_".data s.data &&
    listStarts ".json".data.reverse s.data.reverse

/-- read_raw_courses: glob for teeradar_page_*.json in the raw directory,
sort the matches lexicographically (Python sorted), and flatten every
payload course list, stamping each course with the envelope fetched_at,
offset and the source file name. -/
def readRawCourses (listing : List CaptureFile) : List CourseRow :=
  let files := sortByLe (fun f g => strLe f.name g.name)
    (listing.filter (fun f => matchesCaptureName f.name))
  files.flatMap (fun f => f.courses.map (fun c =>
    ⟨c.course_id, c.name, c.city, c.state, c.rating, c.ratings_count,
      c.tee_fee, c.length_yards, f.fetched_at, f.offset, f.name⟩))

/-- Truncation toward zero: the conversion astype(int) applies to each
float (Lean's integer division of num by den is T-division, which is
exactly C-style truncation toward zero). -/
def ratTrunc (x : ℚ) : ℤ := x.num / (x.den : ℤ)

/-- The normalization block of consolidate_data.py main: rating is
to_numeric-coerced (identity on the modelled values) and, when the
ratings_count column exists, ratings_count is coerced, fillna(0) and cast
with astype(int), so every null becomes 0 and fractional counts are
truncated toward zero. -/
def normalizeNumeric (rows : List CourseRow) : List CourseRow :=
  if rows.any (fun r => r.ratings_count.isSome) then
    rows.map (fun r =>
      ⟨r.course_id, r.name, r.city, r.state, r.rating,
        some ((ratTrunc (r.ratings_count.getD 0) : ℚ)), r.tee_fee, r.length_yards,
        r.fetched_at, r.offset, r.raw_file⟩)
  else rows

/-- Sort key order of sort_values(by=course_id): lexicographic on the
string, with missing keys placed last (pandas default na_position). -/
def optStrLe : Option String → Option String → Bool
  | none, none => true
  | none, some _ => false
  | some _, none => true
  | some x, some y => strLe x y

/-- drop_duplicates(subset=key, keep=last): keep a row exactly when no
later row carries the same key value (pandas considers missing keys equal
to each other). -/
def dropDupKeepLast {α : Type} (key : α → Option String) : List α → List α
  | [] => []
  | a :: t =>
    if t.any (fun b => decide (key b = key a)) then dropDupKeepLast key t
    else a :: dropDupKeepLast key t

/-- The deduplication block of consolidate_data.py main with the default
dedupe key course_id.  The _fetched_at column always exists on rows built
by read_raw_courses, so the code path taken is: convert _fetched_at with
to_datetime (already modelled), then
df.sort_values(by=course_id).drop_duplicates(subset=course_id, keep=last).
Note the sort key is only the dedupe key: _fetched_at is not part of the
sort. -/
def consolidateDedup (rows : List CourseRow) : List CourseRow :=
  if rows.any (fun r => r.course_id.isSome) then
    dropDupKeepLast (fun r => r.course_id)
      (sortByLe (fun a b => optStrLe a.course_id b.course_id) rows)
  else rows

inductive ConsolidateResult where
  | noData
  | ok (rows : List CourseRow)
deriving DecidableEq

/-- consolidate_data.py main (default dedupe key): read the captures; if
no rows were produced, print the no-data message and return before
building the DataFrame or writing any output; otherwise normalize, dedupe
and publish.  Every published byte is a function of the ok payload. -/
def consolidateMain (listing : List CaptureFile) : ConsolidateResult :=
  let rows := readRawCourses listing
  if rows = [] then ConsolidateResult.noData
  else ConsolidateResult.ok (consolidateDedup (normalizeNumeric rows))

/-- C10: whenever capture reading yields zero course records — because no
file name matches teeradar_page_*.json, or because every matching file
carries an empty course list — the consolidation run takes the no-data
early return, before any table is constructed or any output written. -/
theorem c10_no_data_early_return (listing : List CaptureFile)
    (h : ∀ f ∈ listing, matchesCaptureName f.name = true → f.courses = []) :
    consolidateMain listing = ConsolidateResult.noData := by
  have hempty : readRawCourses listing = [] := by
    rw [readRawCourses]
    apply List.flatMap_eq_nil_iff.mpr
    intro f hf
    have hf2 : f ∈ listing.filter (fun f => matchesCaptureName f.name) :=
      (perm_sortByLe _ _).mem_iff.mp hf
    have hmem : f ∈ listing := (List.mem_filter.mp hf2).1
    have hmatch : matchesCaptureName f.name = true := (List.mem_filter.mp hf2).2
    rw [h f hmem hmatch]
    rfl
  rw [consolidateMain]
  simp [hempty]

/-- Witness for c10_no_data_early_return: one matching capture with an
empty payload plus one non-matching file that does contain a course. -/
theorem c10_no_data_early_return_witness :
    consolidateMain
      [⟨"teeradar_page_0.json", some 100, some 0, []⟩,
        ⟨"notes.json", some 150, some 0,
          [⟨some "C9", some "X", some "Austin", some "TX",
            some 4, some 10, some 40, none⟩]⟩] = ConsolidateResult.noData :=
  c10_no_data_early_return _ (by decide)

/-- The failing input for C1: two capture pages carry the same course_id
C1.  The lexicographically first page (read first) is the *fresher* fetch
(epoch 200) with tee_fee 35; the second page is the stale fetch (epoch
100) with tee_fee 40. -/
def c1Course (fee : ℚ) : RawCourse :=
  ⟨some "C1", some "Alpha", some "Austin", some "TX", some 4, some 10, some fee, none⟩

def c1Listing : List CaptureFile :=
  [⟨"teeradar_page_0.json", some 200, some 0, [c1Course 35]⟩,
    ⟨"teeradar_page_100.json", some 100, some 100, [c1Course 40]⟩]

/-- C1 is violated by the code: consolidate_data.py main sorts only by the
dedupe key (df.sort_values(by=args.dedupe_key)) — _fetched_at, although
converted with to_datetime on the line just above, is not part of the sort
— so keep=last retains the row that happens to come last in file order,
here the *stale* observation (fetched_at 100, tee_fee 40) instead of the
freshest one (fetched_at 200, tee_fee 35) that the claim, the code comment
"keep latest by _fetched_at" and the spec scenario all require. -/
theorem c1_dedup_keeps_stale_record :
    consolidateMain c1Listing = ConsolidateResult.ok
      [⟨some "C1", some "Alpha", some "Austin", some "TX", some 4, some 10,
        some 40, none, some 100, some 100, "teeradar_page_100.json"⟩] := by
  decide

/-! ## compute_city_metrics.py: dataframe model

pandas column presence is schema-level: the set of columns of the input
DataFrame is fixed when it is constructed and unaffected by row
operations such as deduplication.  CoursesDF records it as flags; when a
DataFrame is built from course-row dicts (toCoursesDF) a column exists
when some row carries a value for it. -/

structure CoursesDF where
  hasCourseId : Bool
  hasName : Bool
  hasCity : Bool
  hasState : Bool
  hasRating : Bool
  hasRatingsCount : Bool
  hasTeeFee : Bool
  hasLengthYards : Bool
  rows : List CourseRow
deriving DecidableEq

/-- The bridge used only by the end-to-end composition (fullPipeline): a
DataFrame rebuilt from flat course rows.  Caveat: pandas derives column
existence from dict keys, so a column whose every value is null (a key
present with value null in every capture) exists in pandas but is flagged
absent here — the flat CourseRow cells cannot carry that distinction.
compute_metrics itself reads an arbitrary Parquet file
(pd.read_parquet), so its authoritative input model is an arbitrary
CoursesDF with free flags, where a present-but-all-null column is fully
representable (see the C3 counterexample); this bridge only understates
presence for that corner, and the order-invariance result does not depend
on it because the flags are a deterministic function of the rows. -/
def toCoursesDF (rows : List CourseRow) : CoursesDF :=
  ⟨rows.any (fun r => r.course_id.isSome), rows.any (fun r => r.name.isSome),
    rows.any (fun r => r.city.isSome), rows.any (fun r => r.state.isSome),
    rows.any (fun r => r.rating.isSome), rows.any (fun r => r.ratings_count.isSome),
    rows.any (fun r => r.tee_fee.isSome), rows.any (fun r => r.length_yards.isSome),
    rows⟩

/-- Sort key order of sort_values("_fetched_at"): ascending timestamps,
with missing (NaT) placed last (pandas default na_position). -/
def optIntLe : Option ℤ → Option ℤ → Bool
  | none, none => true
  | none, some _ => false
  | some _, none => true
  | some x, some y => decide (x ≤ y)

/-- compute_city_metrics.py lines 33-34: if course_id is a column,
courses_df.sort_values("_fetched_at").drop_duplicates(subset="course_id",
keep="last").  Note that NaT sorts last, so a row with an unparseable
timestamp wins over rows with valid timestamps. -/
def metricsDedup (df : CoursesDF) : CoursesDF :=
  if df.hasCourseId then
    ⟨df.hasCourseId, df.hasName, df.hasCity, df.hasState, df.hasRating,
      df.hasRatingsCount, df.hasTeeFee, df.hasLengthYards,
      dropDupKeepLast (fun r => r.course_id)
        (sortByLe (fun a b => optIntLe a.fetched_at b.fetched_at) df.rows)⟩
  else df

/-! ## RegionAggregator: groupby(city, state) -/

/-- Region key of a row for the grouping columns actually present.  A
grouping column whose value is null excludes the row (pandas groupby
dropna).  When only one of city/state is grouped, the other slot carries
the empty string and the corresponding output column is flagged absent. -/
def keyOf (hasCity hasState : Bool) (r : CourseRow) : Option (String × String) :=
  match hasCity, hasState with
  | true, true =>
    match r.city, r.state with
    | some c, some s => some (c, s)
    | _, _ => none
  | true, false => r.city.map (fun c => (c, ""))
  | false, true => r.state.map (fun s => ("", s))
  | false, false => none

/-- Ascending lexicographic order on region keys (pandas groupby sorts
group keys). -/
def pairLe (a b : String × String) : Bool :=
  if strLt a.1 b.1 then true
  else if strLt b.1 a.1 then false
  else strLe a.2 b.2

/-- pandas Series.mean: arithmetic mean of the non-null values, null when
there are none. -/
def meanOpt (l : List ℚ) : Option ℚ :=
  if l.isEmpty then none else some (l.sum / l.length)

/-- pandas Series.median: sort ascending; odd count takes the middle
value, even count averages the two middle values; null when empty. -/
def medianOpt (l : List ℚ) : Option ℚ :=
  let s := sortByLe (fun a b => decide (a ≤ b)) l
  if s.isEmpty then none
  else if s.length % 2 = 1 then some (s.getD (s.length / 2) 0)
  else some ((s.getD (s.length / 2 - 1) 0 + s.getD (s.length / 2) 0) / 2)

/-- One region row of the aggregate.  Fields whose columns are not flagged
present on the table carry don't-care values ("" or 0 or none). -/
structure AggRow where
  city : String
  state : String
  num_golf_courses : ℚ
  avg_rating : Option ℚ
  sum_ratings_count : ℚ
  median_tee_fee : Option ℚ
  avg_length_yards : Option ℚ
  state_golfable : ℤ
deriving DecidableEq

structure AggTable where
  hasCity : Bool
  hasState : Bool
  hasAvgRating : Bool
  hasSumRatingsCount : Bool
  hasMedianTeeFee : Bool
  hasAvgLengthYards : Bool
  hasStateGolfable : Bool
  rows : List AggRow
deriving DecidableEq

/-- courses_df.groupby(group_cols).agg(dynamic dict).reset_index: one row
per distinct region key, keys ascending; num_golf_courses counts distinct
non-null course_id (name when course_id is absent from the schema);
avg_rating / avg_length_yards are means of non-null values; sum respects
pandas skipna (sum of an all-null column is 0); median ignores nulls. -/
def buildAgg (df : CoursesDF) : AggTable :=
  let rows := df.rows
  let keys := sortByLe pairLe
    ((rows.filterMap (keyOf df.hasCity df.hasState)).dedup)
  let mkRow := fun (k : String × String) =>
    let g := rows.filter (fun r => decide (keyOf df.hasCity df.hasState r = some k))
    (⟨k.1, k.2,
      ((if df.hasCourseId then (g.filterMap (fun r => r.course_id)).dedup.length
        else (g.filterMap (fun r => r.name)).dedup.length : ℕ) : ℚ),
      meanOpt (g.filterMap (fun r => r.rating)),
      (g.filterMap (fun r => r.ratings_count)).sum,
      medianOpt (g.filterMap (fun r => r.tee_fee)),
      meanOpt (g.filterMap (fun r => r.length_yards)),
      0⟩ : AggRow)
  ⟨df.hasCity, df.hasState, df.hasRating, df.hasRatingsCount, df.hasTeeFee,
    df.hasLengthYards, false, keys.map mkRow⟩

/-! ## GolfabilityEnricher

The reference table is carried already column-normalized: a list of
(state key, golfable_year_round as int) pairs.  none stands for every
no-op precondition of the code: no CSV path supplied, the path does not
exist, or the normalized table has no golfable_year_round column. -/

def setGolf (a : AggRow) (v : ℤ) : AggRow :=
  ⟨a.city, a.state, a.num_golf_courses, a.avg_rating, a.sum_ratings_count,
    a.median_tee_fee, a.avg_length_yards, v⟩

/-- agg.merge(states, on=state, how=left) followed by
agg.state_golfable = golfable_year_round.fillna(0).astype(int): each
aggregate row produces one output row per matching reference row (in
reference order), or a single row with flag 0 when nothing matches. -/
def leftMergeGolfable (rows : List AggRow) (ref : List (String × ℤ)) : List AggRow :=
  rows.flatMap (fun a =>
    match ref.filter (fun p => decide (p.1 = a.state)) with
    | [] => [setGolf a 0]
    | ms => ms.map (fun m => setGolf a m.2))

/-- The enrichment block of compute_metrics.  When a normalized reference
is present, the code indexes agg[golfable_year_round] after the merge; if
the aggregate has no state column, no merge branch ran and that index
raises a KeyError, which propagates as a fatal error. -/
def enrichAgg (agg : AggTable) (ref : Option (List (String × ℤ))) :
    Except String AggTable :=
  match ref with
  | none => Except.ok agg
  | some rt =>
    if agg.hasState then
      Except.ok ⟨agg.hasCity, agg.hasState, agg.hasAvgRating,
        agg.hasSumRatingsCount, agg.hasMedianTeeFee, agg.hasAvgLengthYards,
        true, leftMergeGolfable agg.rows rt⟩
    else Except.error "KeyError: golfable_year_round"

/-! ## CompositeScorer -/

def colMin (v : List ℚ) : ℚ :=
  match v with
  | [] => 0
  | h :: t => t.foldl min h

def colMax (v : List ℚ) : ℚ :=
  match v with
  | [] => 0
  | h :: t => t.foldl max h

/-- sklearn MinMaxScaler.fit_transform on one column for the default
(0, 1) range: X_std = (x - min) * (1 / handle_zeros(max - min)).
handle_zeros_in_scale replaces a zero data range by 1, so a constant
column maps to the constant 0 — no NaN and no division by zero. -/
def minMaxScale (v : List ℚ) : List ℚ :=
  let mn := colMin v
  let mx := colMax v
  v.map (fun x => (x - mn) / (if mx - mn = 0 then 1 else mx - mn))

/-- matrix[col] = matrix[col].max() - matrix[col] for the invert
(lower-is-better) metrics; pandas max skips nulls, and null entries stay
null. -/
def invertCol (v : List (Option ℚ)) : List (Option ℚ) :=
  let m := colMax (somes v)
  v.map (Option.map (fun x => m - x))

/-- matrix = matrix.fillna(matrix.mean()): nulls are replaced by the mean
of the column's non-null entries.  The mean of an all-null column is
itself NaN, and fillna with NaN leaves every null in place, so an all-null
column passes through entirely null. -/
def fillNaMean (v : List (Option ℚ)) : List (Option ℚ) :=
  if (somes v).isEmpty then v
  else v.map (fun o => some (o.getD ((somes v).sum / (somes v).length)))

/-- sklearn MinMaxScaler on a column that may contain NaN: the fit
statistics are computed over the non-null entries only and null entries
are maintained by the transform (sklearn treats NaN as missing). -/
def minMaxScaleOpt (v : List (Option ℚ)) : List (Option ℚ) :=
  let mn := colMin (somes v)
  let mx := colMax (somes v)
  v.map (Option.map (fun x => (x - mn) / (if mx - mn = 0 then 1 else mx - mn)))

/-- The per-column pipeline of the scoring block: invert median_tee_fee,
impute, scale.  A null entry surviving imputation (only possible when the
whole column is null) stays null through scaling. -/
def processCol (name : String) (v : List (Option ℚ)) : List (Option ℚ) :=
  minMaxScaleOpt (fillNaMean (if name = "median_tee_fee" then invertCol v else v))

/-- weights = {k: v for k, v in weights.items() if k in score_cols}. -/
def availableWeights (cols : List String) (w : List (String × ℚ)) :
    List (String × ℚ) :=
  w.filter (fun p => cols.contains p.1)

/-- total_weight = sum(weights.values()) or 1.0. -/
def totalWeight (cols : List String) (w : List (String × ℚ)) : ℚ :=
  let s := ((availableWeights cols w).map Prod.snd).sum
  if s = 0 then 1 else s

/-- float arithmetic with NaN, on the cells the scoring loop combines: a
NaN factor or summand absorbs everything, including NaN * 0 = NaN. -/
def optMul (a : Option ℚ) (b : ℚ) : Option ℚ := a.map (fun x => x * b)

def optAdd : Option ℚ → Option ℚ → Option ℚ
  | some a, some b => some (a + b)
  | _, _ => none

/-- The scoring block (lines 107-126): when score_cols is non-empty, build
the matrix, invert, impute, scale, and accumulate
score = score + scaled_df[c] * (weights.get(c, 0) / total_weight) over
the columns in order, starting from the scalar 0; when score_cols is
empty, agg["score"] = 0 for every region.  A null (NaN) scaled entry
poisons the whole region score, exactly as float NaN does. -/
def scoreRows (n : ℕ) (table : List (String × List (Option ℚ)))
    (w : List (String × ℚ)) : List (Option ℚ) :=
  if table.isEmpty then List.replicate n (some 0)
  else
    let cols := table.map Prod.fst
    let aw := availableWeights cols w
    let tw := totalWeight cols w
    let scaled := table.map (fun p => (p.1, processCol p.1 p.2))
    (List.range n).map (fun i =>
      (scaled.map (fun p => optMul (p.2.getD i none) (lookupD p.1 aw / tw))).foldl
        optAdd (some 0))

/-- score_cols in the order the code builds it: avg_rating,
median_tee_fee, num_golf_courses (always present), sum_ratings_count,
avg_length_yards, state_golfable — each included when its column exists
on the aggregate. -/
def scoreCols (t : AggTable) : List (String × List (Option ℚ)) :=
  (if t.hasAvgRating then
    [("avg_rating", t.rows.map (fun r => r.avg_rating))] else
    ([] : List (String × List (Option ℚ)))) ++
  (if t.hasMedianTeeFee then
    [("median_tee_fee", t.rows.map (fun r => r.median_tee_fee))] else []) ++
  ([("num_golf_courses", t.rows.map (fun r => some r.num_golf_courses))] :
    List (String × List (Option ℚ))) ++
  (if t.hasSumRatingsCount then
    [("sum_ratings_count", t.rows.map (fun r => some r.sum_ratings_count))] else []) ++
  (if t.hasAvgLengthYards then
    [("avg_length_yards", t.rows.map (fun r => r.avg_length_yards))] else []) ++
  (if t.hasStateGolfable then
    [("state_golfable", t.rows.map (fun r => some ((r.state_golfable : ℚ))))] else [])

def defaultWeights : List (String × ℚ) :=
  [("avg_rating", 35/100), ("num_golf_courses", 25/100),
    ("median_tee_fee", 20/100), ("sum_ratings_count", 10/100),
    ("avg_length_yards", 0), ("state_golfable", 10/100)]

/-- The contract of agg.sort_values("score", ascending=False) with the
default kind="quicksort": the result is some permutation of the input
rows that is non-increasing in the score.  numpy introsort is documented
as not stable, so which permutation of tied rows appears is unspecified —
every list satisfying this predicate is an admissible output of the
call, and nothing stronger is guaranteed. -/
def IsScoreSortOutput {α : Type} (score : α → ℚ) (l s : List α) : Prop :=
  s.Perm l ∧ List.Pairwise (fun a b => score b ≤ score a) s

/-- reset_index(drop=True) followed by agg["rank"] = agg.index + 1 on a
sorted table: 1-based positions. -/
def rankAssign {α : Type} (s : List α) : List (α × ℕ) :=
  s.enum.map (fun p => (p.2, p.1 + 1))

/-- Sort key order on the score column for ascending=False: larger scores
first, NaN scores last (pandas default na_position).  sortByLe with this
key is one deterministic refinement of the quicksort contract above; the
executable pipeline uses it so that runs are reproducible in the model,
while the rank-correctness results quantify over the contract itself. -/
def optScoreLe (a b : Option ℚ) : Bool :=
  match a, b with
  | some x, some y => decide (y ≤ x)
  | some _, none => true
  | none, some _ => false
  | none, none => true

/-! ## Display rounding and the full compute_metrics -/

/-- Round half to even (the rounding pandas Series.round applies). -/
def roundHalfEven (x : ℚ) : ℤ :=
  let f := ⌊x⌋
  let r := x - f
  if r < 1/2 then f
  else if 1/2 < r then f + 1
  else if f % 2 = 0 then f else f + 1

def roundTo (d : ℕ) (x : ℚ) : ℚ := (roundHalfEven (x * 10 ^ d) : ℚ) / 10 ^ d

/-- The display rounding block: avg_rating and median_tee_fee to 2
decimals, avg_length_yards to 1 decimal; nulls stay null.  It runs after
rank assignment, so ranking uses unrounded scores. -/
def roundDisplay (a : AggRow) : AggRow :=
  ⟨a.city, a.state, a.num_golf_courses, a.avg_rating.map (roundTo 2),
    a.sum_ratings_count, a.median_tee_fee.map (roundTo 2),
    a.avg_length_yards.map (roundTo 1), a.state_golfable⟩

structure MetricsRow where
  row : AggRow
  score : Option ℚ
  rank : ℕ
deriving DecidableEq

structure MetricsOut where
  hasCity : Bool
  hasState : Bool
  hasAvgRating : Bool
  hasSumRatingsCount : Bool
  hasMedianTeeFee : Bool
  hasAvgLengthYards : Bool
  hasStateGolfable : Bool
  rows : List MetricsRow
deriving DecidableEq

/-- compute_metrics: dedupe by course_id (freshest by the flawed sort),
group by the present region columns (fatal when there are none), enrich,
score, rank, round for display. -/
def computeMetrics (df : CoursesDF) (weights : Option (List (String × ℚ)))
    (ref : Option (List (String × ℤ))) : Except String MetricsOut :=
  let df2 := metricsDedup df
  if !(df2.hasCity || df2.hasState) then
    Except.error
      "No city/state columns found to group by; ensure courses include city or state"
  else
    match enrichAgg (buildAgg df2) ref with
    | Except.error e => Except.error e
    | Except.ok agg2 =>
      let w := weights.getD defaultWeights
      let scores := scoreRows agg2.rows.length (scoreCols agg2) w
      let ranked := rankAssign
        (sortByLe (fun p q => optScoreLe p.2 q.2) (agg2.rows.zip scores))
      Except.ok ⟨agg2.hasCity, agg2.hasState, agg2.hasAvgRating,
        agg2.hasSumRatingsCount, agg2.hasMedianTeeFee, agg2.hasAvgLengthYards,
        agg2.hasStateGolfable,
        ranked.map (fun p => ⟨roundDisplay p.1.1, p.1.2, p.2⟩)⟩

/-- compute_city_metrics.py main: read the consolidated table, run
compute_metrics, and only then write the Parquet and CSV outputs.  An
error raised inside compute_metrics propagates before any write: the ok
payload lists the (path, table) writes that happen, an error carries
none. -/
def metricsMain (outputPath csvPath : String) (df : CoursesDF)
    (weights : Option (List (String × ℚ))) (ref : Option (List (String × ℤ))) :
    Except String (List (String × MetricsOut)) :=
  match computeMetrics df weights ref with
  | Except.error e => Except.error e
  | Except.ok m => Except.ok [(outputPath, m), (csvPath, m)]

/-- End-to-end batch: consolidate the captures, then compute the city
metrics from the consolidated rows (none when consolidation found no
data). -/
def fullPipeline (listing : List CaptureFile)
    (weights : Option (List (String × ℚ))) (ref : Option (List (String × ℤ))) :
    Option (Except String (List (String × MetricsOut))) :=
  match consolidateMain listing with
  | ConsolidateResult.noData => none
  | ConsolidateResult.ok rows =>
    some (metricsMain "data/processed/city_golf_metrics.parquet"
      "outputs/city_golf_metrics.csv" (toCoursesDF rows) weights ref)

/-! ## Claim C9: fatal error when no region columns exist -/

theorem metricsDedup_hasCity (df : CoursesDF) :
    (metricsDedup df).hasCity = df.hasCity := by
  rw [metricsDedup]; split <;> rfl

theorem metricsDedup_hasState (df : CoursesDF) :
    (metricsDedup df).hasState = df.hasState := by
  rw [metricsDedup]; split <;> rfl

/-- C9: if neither a city nor a state column exists on the deduplicated
input schema, compute_metrics raises the fatal no-region-columns
ValueError, which propagates out of main before either write call runs: the
run ends in the error state with an empty write list. -/
theorem c9_fatal_without_region_columns (outputPath csvPath : String)
    (df : CoursesDF) (weights : Option (List (String × ℚ)))
    (ref : Option (List (String × ℤ)))
    (hc : df.hasCity = false) (hs : df.hasState = false) :
    metricsMain outputPath csvPath df weights ref =
      Except.error
        "No city/state columns found to group by; ensure courses include city or state" := by
  rw [metricsMain, computeMetrics]
  rw [metricsDedup_hasCity, metricsDedup_hasState, hc, hs]
  rfl

/-- Witness for c9_fatal_without_region_columns: a schema with course and
rating columns but no city and no state. -/
theorem c9_fatal_without_region_columns_witness :
    metricsMain "data/processed/city_golf_metrics.parquet"
        "outputs/city_golf_metrics.csv"
        ⟨true, true, false, false, true, true, true, true,
          [⟨some "C1", some "Alpha", none, none, some 4, some 10, some 40, none,
            some 100, some 0, "teeradar_page_0.json"⟩]⟩ none none =
      Except.error
        "No city/state columns found to group by; ensure courses include city or state" :=
  c9_fatal_without_region_columns _ _ _ none none rfl rfl

/-! ## Claim C5: the enrichment join -/

def c5Row : AggRow := ⟨"Austin", "TX", 3, none, 0, none, none, 0⟩

/-- C5 counterexample: the claim promises that the enrichment join never
duplicates aggregate rows, but a reference table that lists the same state
twice makes the left merge emit one output row per matching reference row,
duplicating the aggregate row. -/
theorem c5_counterexample :
    (leftMergeGolfable [c5Row] [("TX", 1), ("TX", 0)]).length ≠
      ([c5Row] : List AggRow).length := by
  decide

theorem lookupD_keys_filter (ref : List (String × ℤ)) (s : String)
    (hnd : (ref.map Prod.fst).Nodup) :
    ref.filter (fun p => decide (p.1 = s)) = [] ∨
      ∃ v, ref.filter (fun p => decide (p.1 = s)) = [(s, v)] := by
  induction ref with
  | nil => left; rfl
  | cons h t ih =>
    rw [List.map_cons] at hnd
    have hnd2 := List.nodup_cons.mp hnd
    by_cases he : h.1 = s
    · right
      refine ⟨h.2, ?_⟩
      have hft : t.filter (fun p => decide (p.1 = s)) = [] := by
        apply List.filter_eq_nil_iff.mpr
        intro p hp
        simp only [decide_eq_true_eq]
        intro hps
        exact hnd2.1 (he ▸ hps ▸ List.mem_map_of_mem Prod.fst hp)
      have hh : h = (s, h.2) := by
        cases h
        simp only at he
        rw [he]
      rw [List.filter_cons, if_pos (by simpa using he), hft, hh]
    · rw [List.filter_cons, if_neg (by simpa using he)]
      exact ih hnd2.2

theorem setGolf_setGolf (a : AggRow) (v w : ℤ) :
    setGolf (setGolf a v) w = setGolf a w := rfl

theorem setGolf_state (a : AggRow) (v : ℤ) : (setGolf a v).state = a.state := rfl

/-- C5 amended: the enrichment behaves as claimed provided the reference
table has at most one row per state key (which a reference that is a
mapping satisfies): the left merge preserves the aggregate rows exactly
(same rows in the same order, apart from the attached state_golfable
column), an aggregate row whose state has no reference match receives
state_golfable = 0, a missing reference makes the stage a no-op, and the
plain aggregate carries no state_golfable column at all.  With duplicate
state keys in the reference, matched aggregate rows are instead emitted
once per matching reference row (see the counterexample). -/
theorem c5_enrichment_join (df : CoursesDF) (agg : AggTable)
    (rows : List AggRow) (ref : List (String × ℤ))
    (hnd : (ref.map Prod.fst).Nodup) :
    ((leftMergeGolfable rows ref).map (fun a => setGolf a 0) =
        rows.map (fun a => setGolf a 0)) ∧
      (∀ r ∈ leftMergeGolfable rows ref,
        r.state ∉ ref.map Prod.fst → r.state_golfable = 0) ∧
      enrichAgg agg none = Except.ok agg ∧
      (buildAgg df).hasStateGolfable = false := by
  refine ⟨?_, ?_, rfl, rfl⟩
  · induction rows with
    | nil => rfl
    | cons a t ih =>
      rw [leftMergeGolfable] at ih ⊢
      rw [List.flatMap_cons, List.map_append, ih, List.map_cons]
      rcases lookupD_keys_filter ref a.state hnd with hfil | ⟨v, hfil⟩
      · rw [hfil]
        rfl
      · rw [hfil]
        rfl
  · intro r hr hnomatch
    rw [leftMergeGolfable] at hr
    rcases List.mem_flatMap.mp hr with ⟨a, _, hra⟩
    cases hfil : ref.filter (fun p => decide (p.1 = a.state)) with
    | nil =>
      rw [hfil] at hra
      have : r = setGolf a 0 := by simpa using hra
      rw [this]
      rfl
    | cons m ms =>
      exfalso
      rw [hfil] at hra
      rcases List.mem_map.mp hra with ⟨m2, hm2, hrm⟩
      have hm2f : m2 ∈ ref.filter (fun p => decide (p.1 = a.state)) := by
        rw [hfil]; exact hm2
      have hm2ref : m2 ∈ ref := (List.mem_filter.mp hm2f).1
      have hm2key : m2.1 = a.state := by
        have := (List.mem_filter.mp hm2f).2
        simpa using this
      apply hnomatch
      rw [← hrm, setGolf_state, ← hm2key]
      exact List.mem_map_of_mem Prod.fst hm2ref

/-- Witness for c5_enrichment_join at a concrete aggregate and reference:
one matched state, one unmatched. -/
theorem c5_enrichment_join_witness :
    ((([("FL", (1 : ℤ))].map Prod.fst).Nodup) ∧
      ((leftMergeGolfable [c5Row] [("FL", 1)]).map (fun a => setGolf a 0) =
          ([c5Row] : List AggRow).map (fun a => setGolf a 0)) ∧
        (∀ r ∈ leftMergeGolfable [c5Row] [("FL", 1)],
          r.state ∉ [("FL", (1 : ℤ))].map Prod.fst → r.state_golfable = 0) ∧
        enrichAgg ⟨true, true, false, false, false, false, false, [c5Row]⟩ none =
          Except.ok ⟨true, true, false, false, false, false, false, [c5Row]⟩ ∧
        (buildAgg (toCoursesDF [])).hasStateGolfable = false) :=
  ⟨by decide,
    c5_enrichment_join (toCoursesDF [])
      ⟨true, true, false, false, false, false, false, [c5Row]⟩
      [c5Row] [("FL", 1)] (by decide)⟩

/-! ## Claim C2: rank over the descending-sort contract -/

theorem length_rankAssign {α : Type} (s : List α) :
    (rankAssign s).length = s.length := by
  simp [rankAssign, List.enum_length]

theorem rankAssign_get {α : Type} (s : List α) (k : ℕ)
    (hk : k < (rankAssign s).length) (hk2 : k < s.length) :
    (rankAssign s).get ⟨k, hk⟩ = (s.get ⟨k, hk2⟩, k + 1) := by
  simp [rankAssign, List.get_eq_getElem, List.getElem_map, List.getElem_enum]

/-- C2 counterexample: the claim says ties in score are broken by the
order regions occupy after a *stable* descending sort, i.e. the original
grouping order.  The code calls sort_values with the default
kind="quicksort", whose contract only promises a score-descending
permutation — numpy introsort is not stable — so an output with two tied
regions in the opposite of their input order is admissible, and on it the
ranked rows restricted to the tied score do not reproduce the input
order. -/
theorem c2_counterexample :
    IsScoreSortOutput (fun p : String × ℚ => p.2)
        [("a", (1 : ℚ)), ("b", 1)] [("b", (1 : ℚ)), ("a", 1)] ∧
      ((rankAssign [("b", (1 : ℚ)), ("a", 1)]).map Prod.fst).filter
          (fun x => decide (x.2 = 1)) ≠
        ([("a", (1 : ℚ)), ("b", 1)] : List (String × ℚ)).filter
          (fun x => decide (x.2 = 1)) := by
  refine ⟨⟨List.Perm.swap ("a", (1 : ℚ)) ("b", 1) [], ?_⟩, by decide⟩
  refine List.pairwise_cons.mpr ⟨?_, by simp⟩
  intro b hb
  rw [List.mem_singleton] at hb
  subst hb
  norm_num

/-- C2 amended: for every output the descending-sort contract admits, the
rank column is exactly the sequence 1..N — a dense, contiguous, 1-indexed
permutation, each value exactly once — and a strictly greater score
forces a strictly smaller rank.  The original claim additionally promised
the stable-sort tiebreak (ties keep the pre-sort grouping order); the
default non-stable quicksort does not guarantee it and the contract
admits outputs that violate it (see the counterexample), so that conjunct
is dropped.  Restoring it would need kind="stable" in the sort_values
call. -/
theorem c2_rank_dense_permutation {α : Type} (score : α → ℚ) (l s : List α)
    (h : IsScoreSortOutput score l s) :
    ((rankAssign s).map Prod.snd = List.range' 1 l.length) ∧
      (∀ i j (hi : i < (rankAssign s).length) (hj : j < (rankAssign s).length),
        score ((rankAssign s).get ⟨i, hi⟩).1 >
            score ((rankAssign s).get ⟨j, hj⟩).1 →
          ((rankAssign s).get ⟨i, hi⟩).2 < ((rankAssign s).get ⟨j, hj⟩).2) := by
  obtain ⟨hperm, hpw⟩ := h
  have hlen : s.length = l.length := hperm.length_eq
  constructor
  · rw [rankAssign, List.map_map]
    have h1 : (Prod.snd ∘ fun p : ℕ × α => (p.2, p.1 + 1)) =
        ((fun i => i + 1) ∘ Prod.fst) := rfl
    rw [h1, ← List.map_map, List.enum_map_fst, hlen, List.range'_eq_map_range]
    exact List.map_congr_left (fun a _ => Nat.add_comm a 1)
  · intro i j hi hj hgt
    have hi2 : i < s.length := by rw [← length_rankAssign]; exact hi
    have hj2 : j < s.length := by rw [← length_rankAssign]; exact hj
    rw [rankAssign_get s i hi hi2, rankAssign_get s j hj hj2] at hgt ⊢
    simp only [gt_iff_lt] at hgt
    have hij : i < j := by
      by_contra hc
      push_neg at hc
      rcases Nat.lt_or_ge j i with hji | hji
      · have := (List.pairwise_iff_get.mp hpw) ⟨j, hj2⟩ ⟨i, hi2⟩ hji
        exact absurd hgt (not_lt.mpr this)
      · have heq : i = j := le_antisymm hji hc
        subst heq
        exact lt_irrefl _ hgt
    simpa using hij

/-- Witness for c2_rank_dense_permutation at a concrete admissible sort
output of a concrete scored table. -/
theorem c2_rank_dense_permutation_witness :
    IsScoreSortOutput (fun p : String × ℚ => p.2)
        [("a", (1 : ℚ)), ("b", 3)] [("b", (3 : ℚ)), ("a", 1)] ∧
      (rankAssign [("b", (3 : ℚ)), ("a", 1)]).map Prod.snd =
        List.range' 1 ([("a", (1 : ℚ)), ("b", 3)] : List (String × ℚ)).length := by
  have hcontract : IsScoreSortOutput (fun p : String × ℚ => p.2)
      [("a", (1 : ℚ)), ("b", 3)] [("b", (3 : ℚ)), ("a", 1)] := by
    refine ⟨List.Perm.swap ("a", (1 : ℚ)) ("b", 3) [], ?_⟩
    refine List.pairwise_cons.mpr ⟨?_, by simp⟩
    intro b hb
    rw [List.mem_singleton] at hb
    subst hb
    norm_num
  exact ⟨hcontract,
    (c2_rank_dense_permutation (fun p : String × ℚ => p.2) _ _ hcontract).1⟩

/-! ## Claim C6: min-max scaling -/

theorem foldl_min_le_init (t : List ℚ) : ∀ a : ℚ, t.foldl min a ≤ a := by
  induction t with
  | nil => intro a; exact le_refl a
  | cons y t2 ih =>
    intro a
    calc (y :: t2).foldl min a = t2.foldl min (min a y) := rfl
    _ ≤ min a y := ih (min a y)
    _ ≤ a := min_le_left a y

theorem foldl_min_le_mem (t : List ℚ) : ∀ (a x : ℚ), x ∈ t → t.foldl min a ≤ x := by
  induction t with
  | nil => intro a x hx; cases hx
  | cons y t2 ih =>
    intro a x hx
    rcases List.mem_cons.mp hx with rfl | hxt
    · calc (x :: t2).foldl min a = t2.foldl min (min a x) := rfl
      _ ≤ min a x := foldl_min_le_init t2 (min a x)
      _ ≤ x := min_le_right a x
    · exact ih (min a y) x hxt

theorem init_le_foldl_max (t : List ℚ) : ∀ a : ℚ, a ≤ t.foldl max a := by
  induction t with
  | nil => intro a; exact le_refl a
  | cons y t2 ih =>
    intro a
    calc a ≤ max a y := le_max_left a y
    _ ≤ t2.foldl max (max a y) := ih (max a y)
    _ = (y :: t2).foldl max a := rfl

theorem mem_le_foldl_max (t : List ℚ) : ∀ (a x : ℚ), x ∈ t → x ≤ t.foldl max a := by
  induction t with
  | nil => intro a x hx; cases hx
  | cons y t2 ih =>
    intro a x hx
    rcases List.mem_cons.mp hx with rfl | hxt
    · calc x ≤ max a x := le_max_right a x
      _ ≤ t2.foldl max (max a x) := init_le_foldl_max t2 (max a x)
      _ = (x :: t2).foldl max a := rfl
    · exact ih (max a y) x hxt

theorem colMin_le (v : List ℚ) (x : ℚ) (hx : x ∈ v) : colMin v ≤ x := by
  cases v with
  | nil => cases hx
  | cons h t =>
    rcases List.mem_cons.mp hx with rfl | hxt
    · exact foldl_min_le_init t x
    · exact foldl_min_le_mem t h x hxt

theorem le_colMax (v : List ℚ) (x : ℚ) (hx : x ∈ v) : x ≤ colMax v := by
  cases v with
  | nil => cases hx
  | cons h t =>
    rcases List.mem_cons.mp hx with rfl | hxt
    · exact init_le_foldl_max t x
    · exact mem_le_foldl_max t h x hxt

theorem foldl_min_mem (t : List ℚ) : ∀ a : ℚ, t.foldl min a = a ∨ t.foldl min a ∈ t := by
  induction t with
  | nil => intro a; exact Or.inl rfl
  | cons y t2 ih =>
    intro a
    have hfold : (y :: t2).foldl min a = t2.foldl min (min a y) := rfl
    rcases ih (min a y) with h | h
    · rcases min_choice a y with hm | hm
      · left
        rw [hfold, h, hm]
      · right
        rw [hfold, h, hm]
        exact List.mem_cons_self y t2
    · right
      rw [hfold]
      exact List.mem_cons_of_mem y h

theorem foldl_max_mem (t : List ℚ) : ∀ a : ℚ, t.foldl max a = a ∨ t.foldl max a ∈ t := by
  induction t with
  | nil => intro a; exact Or.inl rfl
  | cons y t2 ih =>
    intro a
    have hfold : (y :: t2).foldl max a = t2.foldl max (max a y) := rfl
    rcases ih (max a y) with h | h
    · rcases max_choice a y with hm | hm
      · left
        rw [hfold, h, hm]
      · right
        rw [hfold, h, hm]
        exact List.mem_cons_self y t2
    · right
      rw [hfold]
      exact List.mem_cons_of_mem y h

theorem colMin_mem (v : List ℚ) (hv : v ≠ []) : colMin v ∈ v := by
  cases v with
  | nil => exact absurd rfl hv
  | cons h t =>
    rcases foldl_min_mem t h with he | hm
    · rw [colMin, he]
      exact List.mem_cons_self h t
    · exact List.mem_cons_of_mem h hm

theorem colMax_mem (v : List ℚ) (hv : v ≠ []) : colMax v ∈ v := by
  cases v with
  | nil => exact absurd rfl hv
  | cons h t =>
    rcases foldl_max_mem t h with he | hm
    · rw [colMax, he]
      exact List.mem_cons_self h t
    · exact List.mem_cons_of_mem h hm

theorem minMaxScale_eq (v : List ℚ) :
    minMaxScale v = v.map (fun x => (x - colMin v) /
      (if colMax v - colMin v = 0 then 1 else colMax v - colMin v)) := rfl

theorem minMaxScale_mem_bounds (v : List ℚ) :
    ∀ x ∈ minMaxScale v, 0 ≤ x ∧ x ≤ 1 := by
  intro x hx
  rw [minMaxScale_eq] at hx
  rcases List.mem_map.mp hx with ⟨y, hy, rfl⟩
  have h1 : colMin v ≤ y := colMin_le v y hy
  have h2 : y ≤ colMax v := le_colMax v y hy
  by_cases hzero : colMax v - colMin v = 0
  · have hmxmn : colMax v = colMin v := by linarith
    have hy2 : y = colMin v := le_antisymm (hmxmn ▸ h2) h1
    rw [if_pos hzero, hy2]
    norm_num
  · have hpos : 0 < colMax v - colMin v :=
      lt_of_le_of_ne (by linarith) (Ne.symm hzero)
    rw [if_neg hzero]
    constructor
    · exact div_nonneg (by linarith) (le_of_lt hpos)
    · rw [div_le_one hpos]
      linarith

theorem minMaxScale_zero_variance (v : List ℚ) (hv : v ≠ [])
    (hconst : ∀ x ∈ v, ∀ y ∈ v, x = y) :
    minMaxScale v = v.map (fun _ => 0) := by
  have hmm : colMax v = colMin v :=
    hconst (colMax v) (colMax_mem v hv) (colMin v) (colMin_mem v hv)
  rw [minMaxScale_eq]
  apply List.map_congr_left
  intro y hy
  have hy2 : y = colMin v := hconst y hy (colMin v) (colMin_mem v hv)
  rw [hy2]
  simp

/-- C6: every metric column is scaled into the unit interval, the scaling
is exactly (x - min) / (max - min) whenever the column has positive
range, and a zero-variance column scales to the constant 0 for every
region (the zero-range guard divides by 1 instead of 0, so the result is
total: no NaN and no division-by-zero failure). -/
theorem c6_minmax_scaling (v : List ℚ) (hv : v ≠ []) :
    (∀ x ∈ minMaxScale v, 0 ≤ x ∧ x ≤ 1) ∧
      (colMax v - colMin v ≠ 0 →
        minMaxScale v = v.map (fun x => (x - colMin v) / (colMax v - colMin v))) ∧
      ((∀ x ∈ v, ∀ y ∈ v, x = y) → minMaxScale v = v.map (fun _ => 0)) := by
  refine ⟨minMaxScale_mem_bounds v, ?_, minMaxScale_zero_variance v hv⟩
  intro h
  rw [minMaxScale_eq, if_neg h]

/-- Witness for c6_minmax_scaling on the column [1, 3]. -/
theorem c6_minmax_scaling_witness :
    (([1, 3] : List ℚ) ≠ []) ∧
      ((∀ x ∈ minMaxScale [1, 3], 0 ≤ x ∧ x ≤ 1) ∧
        (colMax [1, 3] - colMin [1, 3] ≠ 0 →
          minMaxScale [1, 3] = ([1, 3] : List ℚ).map
            (fun x => (x - colMin [1, 3]) / (colMax [1, 3] - colMin [1, 3]))) ∧
        ((∀ x ∈ ([1, 3] : List ℚ), ∀ y ∈ ([1, 3] : List ℚ), x = y) →
          minMaxScale [1, 3] = ([1, 3] : List ℚ).map (fun _ => 0))) :=
  ⟨by simp, c6_minmax_scaling [1, 3] (by simp)⟩

/-! ## Weight renormalization: shared lemmas for C3 and C7 -/

theorem lookupD_nonneg (w : List (String × ℚ)) (k : String)
    (hw : ∀ p ∈ w, 0 ≤ p.2) : 0 ≤ lookupD k w := by
  induction w with
  | nil => exact le_refl 0
  | cons hd t ih =>
    obtain ⟨k2, v⟩ := hd
    rw [lookupD]
    split
    · exact hw (k2, v) (List.mem_cons_self _ t)
    · exact ih (fun p hp => hw p (List.mem_cons_of_mem _ hp))

theorem lookupD_filter_ne (aw : List (String × ℚ)) (c q : String) (h : q ≠ c) :
    lookupD q (aw.filter (fun p => !(decide (p.1 = c)))) = lookupD q aw := by
  induction aw with
  | nil => rfl
  | cons hd t ih =>
    obtain ⟨k2, v⟩ := hd
    by_cases hk : k2 = c
    · rw [List.filter_cons, if_neg (by simp [hk]), ih, lookupD,
        if_neg (by rw [hk]; exact h)]
    · rw [List.filter_cons, if_pos (by simp [hk]), lookupD, lookupD]
      by_cases hq : q = k2
      · rw [if_pos hq, if_pos hq]
      · rw [if_neg hq, if_neg hq, ih]

theorem sum_snd_split (aw : List (String × ℚ)) (c : String)
    (hnd : (aw.map Prod.fst).Nodup) :
    (aw.map Prod.snd).sum =
      lookupD c aw +
        ((aw.filter (fun p => !(decide (p.1 = c)))).map Prod.snd).sum := by
  induction aw with
  | nil => simp [lookupD]
  | cons hd t ih =>
    obtain ⟨k2, v⟩ := hd
    rw [List.map_cons] at hnd
    have hnd2 := List.nodup_cons.mp hnd
    by_cases hk : k2 = c
    · subst hk
      rw [List.filter_cons, if_neg (by simp), lookupD, if_pos rfl]
      have hfix : t.filter (fun p => !(decide (p.1 = k2))) = t := by
        apply List.filter_eq_self.mpr
        intro p hp
        have : p.1 ≠ k2 := by
          intro he
          have hmem : p.1 ∈ t.map Prod.fst := List.mem_map_of_mem Prod.fst hp
          exact hnd2.1 (he ▸ hmem)
        simpa using this
      rw [hfix, List.map_cons, List.sum_cons]
    · rw [List.filter_cons, if_pos (by simp [hk]), lookupD,
        if_neg (fun he => hk he.symm), List.map_cons, List.sum_cons,
        List.map_cons, List.sum_cons, ih hnd2.2]
      ring

theorem sum_lookupD (cols : List String) :
    ∀ aw : List (String × ℚ), cols.Nodup → (aw.map Prod.fst).Nodup →
      (∀ p ∈ aw, p.1 ∈ cols) →
      (cols.map (fun c => lookupD c aw)).sum = (aw.map Prod.snd).sum := by
  induction cols with
  | nil =>
    intro aw _ _ hsub
    cases aw with
    | nil => rfl
    | cons p t => exact absurd (hsub p (List.mem_cons_self p t)) (List.not_mem_nil p.1)
  | cons c cs ih =>
    intro aw hndc hnda hsub
    have hndc2 := List.nodup_cons.mp hndc
    have h1 : ∀ c2 ∈ cs, lookupD c2 aw =
        lookupD c2 (aw.filter (fun p => !(decide (p.1 = c)))) := by
      intro c2 hc2
      have hne : c2 ≠ c := fun he => hndc2.1 (he ▸ hc2)
      exact (lookupD_filter_ne aw c c2 hne).symm
    have hsub1 : ∀ p ∈ aw.filter (fun p => !(decide (p.1 = c))), p.1 ∈ cs := by
      intro p hp
      have hpa := List.mem_filter.mp hp
      have hne : p.1 ≠ c := by simpa using hpa.2
      rcases List.mem_cons.mp (hsub p hpa.1) with he | hm
      · exact absurd he hne
      · exact hm
    have hnda1 : ((aw.filter (fun p => !(decide (p.1 = c)))).map Prod.fst).Nodup :=
      List.Nodup.sublist ((List.filter_sublist aw).map Prod.fst) hnda
    rw [List.map_cons, List.sum_cons, List.map_congr_left h1,
      ih _ hndc2.2 hnda1 hsub1]
    exact (sum_snd_split aw c hnda).symm

theorem sum_filter_zero_terms (l : List String) (f : String → ℚ) (g : String → ℚ)
    (h : ∀ c ∈ l, g c = 0 → f c = 0) :
    ((l.filter (fun c => !(decide (g c = 0)))).map f).sum = (l.map f).sum := by
  induction l with
  | nil => rfl
  | cons c cs ih =>
    have ih2 := ih (fun c2 hc2 => h c2 (List.mem_cons_of_mem c hc2))
    rw [List.filter_cons]
    by_cases hg : g c = 0
    · rw [if_neg (by simp [hg]), List.map_cons, List.sum_cons,
        h c (List.mem_cons_self c cs) hg, zero_add, ih2]
    · rw [if_pos (by simp [hg]), List.map_cons, List.sum_cons,
        List.map_cons, List.sum_cons, ih2]

theorem sum_map_div (l : List String) (f : String → ℚ) (b : ℚ) :
    (l.map (fun c => f c / b)).sum = (l.map f).sum / b := by
  induction l with
  | nil => simp
  | cons c cs ih => simp [ih, add_div]

theorem totalWeight_nonneg_sum (cols : List String) (w : List (String × ℚ))
    (hw : ∀ p ∈ w, 0 ≤ p.2) :
    0 ≤ ((availableWeights cols w).map Prod.snd).sum := by
  apply List.sum_nonneg
  intro x hx
  rcases List.mem_map.mp hx with ⟨p, hp, rfl⟩
  exact hw p (List.mem_filter.mp hp).1

theorem totalWeight_pos (cols : List String) (w : List (String × ℚ))
    (hw : ∀ p ∈ w, 0 ≤ p.2) : 0 < totalWeight cols w := by
  have hnn := totalWeight_nonneg_sum cols w hw
  simp only [totalWeight]
  split
  · norm_num
  · rename_i hne
    exact lt_of_le_of_ne hnn (Ne.symm hne)

theorem totalWeight_eq (cols : List String) (w : List (String × ℚ))
    (h : ((availableWeights cols w).map Prod.snd).sum ≠ 0) :
    totalWeight cols w = ((availableWeights cols w).map Prod.snd).sum := by
  simp only [totalWeight]
  rw [if_neg h]

theorem availableWeights_keys_nodup (cols : List String) (w : List (String × ℚ))
    (hndw : (w.map Prod.fst).Nodup) :
    ((availableWeights cols w).map Prod.fst).Nodup :=
  List.Nodup.sublist ((List.filter_sublist w).map Prod.fst) hndw

theorem availableWeights_keys_sub (cols : List String) (w : List (String × ℚ)) :
    ∀ p ∈ availableWeights cols w, p.1 ∈ cols := by
  intro p hp
  have hpa := List.mem_filter.mp hp
  exact List.elem_iff.mp hpa.2

/-- C7: whenever the active metric set (score columns with a nonzero
available weight) is non-empty, the renormalized weights the scoring loop
actually applies — weights.get(c, 0) / total_weight over the active
columns — sum to exactly 1 (the rational-number model makes the floating
tolerance exact): inactive weights were dropped by the availability filter
before total_weight was computed, so they cannot depress the achievable
score. -/
theorem c7_renormalized_weights_sum_one (cols : List String)
    (w : List (String × ℚ)) (hndc : cols.Nodup)
    (hndw : (w.map Prod.fst).Nodup) (hw : ∀ p ∈ w, 0 ≤ p.2)
    (hactive : ∃ c ∈ cols, lookupD c (availableWeights cols w) ≠ 0) :
    ((cols.filter
        (fun c => !(decide (lookupD c (availableWeights cols w) = 0)))).map
      (fun c => lookupD c (availableWeights cols w) / totalWeight cols w)).sum
      = 1 := by
  have hnda := availableWeights_keys_nodup cols w hndw
  have hsub := availableWeights_keys_sub cols w
  have hawnn : ∀ p ∈ availableWeights cols w, 0 ≤ p.2 :=
    fun p hp => hw p (List.mem_filter.mp hp).1
  have hsum := sum_lookupD cols (availableWeights cols w) hndc hnda hsub
  obtain ⟨c0, hc0, hc0ne⟩ := hactive
  have hS0 : 0 < ((availableWeights cols w).map Prod.snd).sum := by
    rw [← hsum]
    have hmem : lookupD c0 (availableWeights cols w) ∈
        cols.map (fun c => lookupD c (availableWeights cols w)) :=
      List.mem_map_of_mem _ hc0
    have hnnall : ∀ x ∈ cols.map (fun c => lookupD c (availableWeights cols w)),
        0 ≤ x := by
      intro x hx
      rcases List.mem_map.mp hx with ⟨c, _, rfl⟩
      exact lookupD_nonneg _ c hawnn
    have hle := List.single_le_sum hnnall _ hmem
    have hpos : 0 < lookupD c0 (availableWeights cols w) :=
      lt_of_le_of_ne (lookupD_nonneg _ c0 hawnn) (Ne.symm hc0ne)
    exact lt_of_lt_of_le hpos hle
  rw [sum_filter_zero_terms cols _ (fun c => lookupD c (availableWeights cols w))
    (fun c _ h0 => by
      have h0b : lookupD c (availableWeights cols w) = 0 := h0
      rw [h0b, zero_div]),
    sum_map_div, hsum, totalWeight_eq cols w (ne_of_gt hS0),
    div_self (ne_of_gt hS0)]

/-- Witness for c7_renormalized_weights_sum_one: columns with one active
and one zero-weighted metric. -/
theorem c7_renormalized_weights_sum_one_witness :
    ((["num_golf_courses", "avg_rating"] : List String).Nodup ∧
        (∀ p ∈ ([("num_golf_courses", (3 : ℚ)), ("avg_rating", 0)] :
          List (String × ℚ)), 0 ≤ p.2)) ∧
      ((["num_golf_courses", "avg_rating"].filter
          (fun c => !(decide (lookupD c (availableWeights
            ["num_golf_courses", "avg_rating"]
            [("num_golf_courses", (3 : ℚ)), ("avg_rating", 0)]) = 0)))).map
        (fun c => lookupD c (availableWeights
            ["num_golf_courses", "avg_rating"]
            [("num_golf_courses", (3 : ℚ)), ("avg_rating", 0)]) /
          totalWeight ["num_golf_courses", "avg_rating"]
            [("num_golf_courses", (3 : ℚ)), ("avg_rating", 0)])).sum = 1 :=
  ⟨⟨by decide, by decide⟩,
    c7_renormalized_weights_sum_one _ _ (by decide) (by decide) (by decide)
      ⟨"num_golf_courses", by decide, by decide⟩⟩

/-! ## Claim C3: composite scores and the all-null NaN corner -/

/-- The all-some value list a column takes after mean imputation, when
the column has at least one non-null entry. -/
def fillVals (v : List (Option ℚ)) : List ℚ :=
  v.map (fun o => o.getD ((somes v).sum / (somes v).length))

/-- The underlying scaled values of a column that has at least one
non-null entry. -/
def processColVals (nm : String) (v : List (Option ℚ)) : List ℚ :=
  minMaxScale (fillVals (if nm = "median_tee_fee" then invertCol v else v))

theorem somes_map_some (u : List ℚ) : somes (u.map some) = u := by
  simp [somes]

theorem somes_map_option_map (f : ℚ → ℚ) (v : List (Option ℚ)) :
    somes (v.map (Option.map f)) = (somes v).map f := by
  induction v with
  | nil => rfl
  | cons o t ih =>
    cases o with
    | none => simpa [somes] using ih
    | some x => simpa [somes] using ih

theorem somes_invertCol (v : List (Option ℚ)) :
    somes (invertCol v) = (somes v).map (fun x => colMax (somes v) - x) := by
  rw [invertCol]
  exact somes_map_option_map _ v

theorem minMaxScaleOpt_map_some (u : List ℚ) :
    minMaxScaleOpt (u.map some) = (minMaxScale u).map some := by
  simp only [minMaxScaleOpt, minMaxScale_eq, somes_map_some, List.map_map]
  rfl

theorem fillNaMean_eq (v : List (Option ℚ)) (h : somes v ≠ []) :
    fillNaMean v = (fillVals v).map some := by
  have hie : (somes v).isEmpty = false := by
    cases hsv : somes v with
    | nil => exact absurd hsv h
    | cons a t => rfl
  rw [fillNaMean, if_neg (by simp [hie]), fillVals, List.map_map]
  rfl

theorem processCol_eq (nm : String) (v : List (Option ℚ)) (h : somes v ≠ []) :
    processCol nm v = (processColVals nm v).map some := by
  rw [processCol, processColVals]
  by_cases hnm : nm = "median_tee_fee"
  · rw [if_pos hnm]
    have hne : somes (invertCol v) ≠ [] := by
      rw [somes_invertCol]
      intro hcon
      exact h (List.map_eq_nil_iff.mp hcon)
    rw [fillNaMean_eq _ hne]
    exact minMaxScaleOpt_map_some _
  · rw [if_neg hnm, fillNaMean_eq _ h]
    exact minMaxScaleOpt_map_some _

theorem length_fillVals (v : List (Option ℚ)) : (fillVals v).length = v.length := by
  simp [fillVals]

theorem length_invertCol (v : List (Option ℚ)) :
    (invertCol v).length = v.length := by
  simp [invertCol]

theorem length_processColVals (nm : String) (v : List (Option ℚ)) :
    (processColVals nm v).length = v.length := by
  by_cases h : nm = "median_tee_fee" <;>
    simp [processColVals, h, minMaxScale_eq, length_fillVals, length_invertCol]

theorem processColVals_mem_bounds (nm : String) (v : List (Option ℚ)) :
    ∀ x ∈ processColVals nm v, 0 ≤ x ∧ x ≤ 1 := by
  intro x hx
  rw [processColVals] at hx
  exact minMaxScale_mem_bounds _ x hx

theorem getD_map_some (us : List ℚ) (i : ℕ) (h : i < us.length) :
    (us.map some).getD i none = some (us.getD i 0) := by
  have h2 : i < (us.map some).length := by simpa using h
  rw [List.getD_eq_getElem _ _ h2, List.getD_eq_getElem _ _ h, List.getElem_map]

theorem foldl_optAdd_map_some (ts : List ℚ) :
    ∀ a : ℚ, (ts.map some).foldl optAdd (some a) = some (a + ts.sum) := by
  induction ts with
  | nil => intro a; simp
  | cons h t ih =>
    intro a
    have hstep : optAdd (some a) (some h) = some (a + h) := rfl
    rw [List.map_cons, List.foldl_cons, hstep, ih (a + h), List.sum_cons,
      add_assoc]

theorem totalWeight_one (cols : List String) (w : List (String × ℚ))
    (h : ((availableWeights cols w).map Prod.snd).sum = 0) :
    totalWeight cols w = 1 := by
  simp only [totalWeight]
  rw [if_pos h]

theorem scoreRows_eq_of_nonnull (n : ℕ)
    (table : List (String × List (Option ℚ))) (w : List (String × ℚ))
    (htab : table.isEmpty = false)
    (hlen : ∀ p ∈ table, (p.2 : List (Option ℚ)).length = n)
    (hnn : ∀ p ∈ table, somes p.2 ≠ []) :
    scoreRows n table w = (List.range n).map (fun i =>
      some ((table.map (fun p => (processColVals p.1 p.2).getD i 0 *
        (lookupD p.1 (availableWeights (table.map Prod.fst) w) /
          totalWeight (table.map Prod.fst) w))).sum)) := by
  rw [scoreRows, if_neg (by simp [htab])]
  simp only [List.map_map, Function.comp_def]
  apply List.map_congr_left
  intro i hir
  have hi : i < n := List.mem_range.mp hir
  have hterms : table.map (fun p =>
      optMul ((processCol p.1 p.2).getD i none)
        (lookupD p.1 (availableWeights (table.map Prod.fst) w) /
          totalWeight (table.map Prod.fst) w)) =
      (table.map (fun p => (processColVals p.1 p.2).getD i 0 *
        (lookupD p.1 (availableWeights (table.map Prod.fst) w) /
          totalWeight (table.map Prod.fst) w))).map some := by
    rw [List.map_map]
    apply List.map_congr_left
    intro p hp
    have hl : i < (processColVals p.1 p.2).length := by
      rw [length_processColVals, hlen p hp]
      exact hi
    show optMul ((processCol p.1 p.2).getD i none) _ = _
    rw [processCol_eq p.1 p.2 (hnn p hp), getD_map_some _ i hl]
    rfl
  rw [hterms, foldl_optAdd_map_some, zero_add]

def c3Table : List (String × List (Option ℚ)) :=
  [("avg_rating", [none, none]), ("num_golf_courses", [some 1, some 2])]

def c3W : List (String × ℚ) := [("avg_rating", 1), ("num_golf_courses", 1)]

/-- C3 counterexample: a rating column that exists in the schema but whose
every value coerced to null (all-NaN in pandas) is an active metric — it
carries a nonzero available weight — yet its column mean is NaN, fillna
leaves the NaNs, the scaler maintains them, and NaN times any weight
(zero included) poisons the accumulated score, so every region's score is
NaN (modelled as none) and the claimed bound 0 <= score <= 1 fails for
every region. -/
theorem c3_counterexample :
    (∃ p ∈ c3Table,
        lookupD p.1 (availableWeights (c3Table.map Prod.fst) c3W) ≠ 0) ∧
      scoreRows 2 c3Table c3W = [none, none] ∧
      ¬(∀ s ∈ scoreRows 2 c3Table c3W, ∃ x : ℚ, s = some x ∧ 0 ≤ x ∧ x ≤ 1) := by
  refine ⟨⟨("avg_rating", [none, none]), by decide, by decide⟩, by decide, ?_⟩
  intro hall
  have hmem : (none : Option ℚ) ∈ scoreRows 2 c3Table c3W := by decide
  obtain ⟨x, hx, _⟩ := hall none hmem
  cases hx

/-- C3 amended: provided every score column carries at least one non-null
value — the hypothesis that excludes the all-null NaN corner refuted by
the counterexample — and weights are non-negative with distinct column
names and dict keys, every region's composite score is a number in
[0, 1]; and when the active metric set (columns with a nonzero available
weight) is empty, in particular when there are no score columns at all,
every region's score is exactly 0. -/
theorem c3_score_in_unit_interval (n : ℕ)
    (table : List (String × List (Option ℚ))) (w : List (String × ℚ))
    (hlen : ∀ p ∈ table, (p.2 : List (Option ℚ)).length = n)
    (hnonnull : ∀ p ∈ table, somes p.2 ≠ [])
    (hw : ∀ p ∈ w, 0 ≤ p.2)
    (hndc : (table.map Prod.fst).Nodup)
    (hndw : (w.map Prod.fst).Nodup) :
    (∀ s ∈ scoreRows n table w, ∃ x : ℚ, s = some x ∧ 0 ≤ x ∧ x ≤ 1) ∧
      ((∀ p ∈ table,
          lookupD p.1 (availableWeights (table.map Prod.fst) w) = 0) →
        ∀ s ∈ scoreRows n table w, s = some 0) := by
  by_cases htab : table.isEmpty
  · rw [scoreRows, if_pos htab]
    constructor
    · intro s hs
      rw [List.eq_of_mem_replicate hs]
      exact ⟨0, rfl, le_refl 0, by norm_num⟩
    · intro _ s hs
      exact List.eq_of_mem_replicate hs
  · have htab2 : table.isEmpty = false := by
      revert htab; cases table.isEmpty <;> simp
    rw [scoreRows_eq_of_nonnull n table w htab2 hlen hnonnull]
    have hawnn : ∀ p ∈ availableWeights (table.map Prod.fst) w, 0 ≤ p.2 :=
      fun p hp => hw p (List.mem_filter.mp hp).1
    have htwpos := totalWeight_pos (table.map Prod.fst) w hw
    constructor
    · intro s hs
      rcases List.mem_map.mp hs with ⟨i, hirange, rfl⟩
      have hi : i < n := List.mem_range.mp hirange
      refine ⟨_, rfl, ?_, ?_⟩
      · apply List.sum_nonneg
        intro x hx
        rcases List.mem_map.mp hx with ⟨p, hp, rfl⟩
        apply mul_nonneg
        · have hplen : (processColVals p.1 p.2).length = n :=
            (length_processColVals _ _).trans (hlen p hp)
          have hi2 : i < (processColVals p.1 p.2).length := by
            rw [hplen]; exact hi
          rw [List.getD_eq_getElem _ _ hi2]
          exact (processColVals_mem_bounds p.1 p.2 _ (List.getElem_mem hi2)).1
        · exact div_nonneg (lookupD_nonneg _ _ hawnn) (le_of_lt htwpos)
      · have hstep : (table.map (fun p => (processColVals p.1 p.2).getD i 0 *
            (lookupD p.1 (availableWeights (table.map Prod.fst) w) /
              totalWeight (table.map Prod.fst) w))).sum ≤
            (table.map (fun p =>
              lookupD p.1 (availableWeights (table.map Prod.fst) w) /
                totalWeight (table.map Prod.fst) w)).sum := by
          apply List.sum_le_sum
          intro p hp
          apply mul_le_of_le_one_left
          · exact div_nonneg (lookupD_nonneg _ _ hawnn) (le_of_lt htwpos)
          · have hplen : (processColVals p.1 p.2).length = n :=
              (length_processColVals _ _).trans (hlen p hp)
            have hi2 : i < (processColVals p.1 p.2).length := by
              rw [hplen]; exact hi
            rw [List.getD_eq_getElem _ _ hi2]
            exact (processColVals_mem_bounds p.1 p.2 _ (List.getElem_mem hi2)).2
        refine le_trans hstep ?_
        have hmm : (table.map (fun p =>
            lookupD p.1 (availableWeights (table.map Prod.fst) w) /
              totalWeight (table.map Prod.fst) w)).sum =
            ((table.map Prod.fst).map (fun c =>
              lookupD c (availableWeights (table.map Prod.fst) w) /
                totalWeight (table.map Prod.fst) w)).sum := by
          rw [List.map_map]
          rfl
        rw [hmm, sum_map_div,
          sum_lookupD (table.map Prod.fst) _ hndc
            (availableWeights_keys_nodup _ w hndw)
            (availableWeights_keys_sub _ w)]
        by_cases hS0 : ((availableWeights (table.map Prod.fst) w).map
            Prod.snd).sum = 0
        · rw [hS0, totalWeight_one _ w hS0]
          norm_num
        · rw [totalWeight_eq _ w hS0, div_self hS0]
    · intro hzero s hs
      rcases List.mem_map.mp hs with ⟨i, _, rfl⟩
      have hsum : (table.map (fun p => (processColVals p.1 p.2).getD i 0 *
          (lookupD p.1 (availableWeights (table.map Prod.fst) w) /
            totalWeight (table.map Prod.fst) w))).sum = 0 := by
        apply List.sum_eq_zero
        intro x hx
        rcases List.mem_map.mp hx with ⟨p, hp, rfl⟩
        rw [hzero p hp, zero_div, mul_zero]
      rw [hsum]

/-- Witness for c3_score_in_unit_interval: two regions, two columns with
non-null entries, one weighted and one with weight zero. -/
theorem c3_score_in_unit_interval_witness :
    ((∀ p ∈ ([("num_golf_courses", [some 1, some 3]),
          ("avg_rating", [some 4, none])] :
        List (String × List (Option ℚ))), p.2.length = 2) ∧
      (∀ p ∈ ([("num_golf_courses", [some 1, some 3]),
          ("avg_rating", [some 4, none])] :
        List (String × List (Option ℚ))), somes p.2 ≠ []) ∧
      (∀ p ∈ ([("num_golf_courses", (3 : ℚ)), ("avg_rating", 0)] :
        List (String × ℚ)), 0 ≤ p.2)) ∧
      (∀ s ∈ scoreRows 2
        [("num_golf_courses", [some 1, some 3]), ("avg_rating", [some 4, none])]
        [("num_golf_courses", (3 : ℚ)), ("avg_rating", 0)],
        ∃ x : ℚ, s = some x ∧ 0 ≤ x ∧ x ≤ 1) :=
  ⟨⟨by decide, by decide, by decide⟩,
    (c3_score_in_unit_interval 2
      [("num_golf_courses", [some 1, some 3]), ("avg_rating", [some 4, none])]
      [("num_golf_courses", (3 : ℚ)), ("avg_rating", 0)]
      (by decide) (by decide) (by decide) (by decide) (by decide)).1⟩

/-! ## Claim C8: determinism and idempotence of the pipeline -/

theorem readRawCourses_perm_eq (l₁ l₂ : List CaptureFile) (hperm : l₁.Perm l₂)
    (hnd : (l₁.map CaptureFile.name).Nodup) :
    readRawCourses l₁ = readRawCourses l₂ := by
  have hkey : sortByLe (fun f g => strLe f.name g.name)
      (l₁.filter (fun f => matchesCaptureName f.name)) =
      sortByLe (fun f g => strLe f.name g.name)
      (l₂.filter (fun f => matchesCaptureName f.name)) := by
    apply eq_of_perm_of_pairwise (fun f g => strLe f.name g.name)
      CaptureFile.name
      (fun x y hxy hyx => strLe_antisymm x.name y.name hxy hyx)
    · exact (perm_sortByLe _ _).trans
        ((hperm.filter _).trans (perm_sortByLe _ _).symm)
    · exact pairwise_sortByLe _
        (fun (x y : CaptureFile) => strLe_total x.name y.name)
        (fun (x y z : CaptureFile) hxy hyz =>
          strLe_trans x.name y.name z.name hxy hyz) _
    · exact pairwise_sortByLe _
        (fun (x y : CaptureFile) => strLe_total x.name y.name)
        (fun (x y z : CaptureFile) hxy hyz =>
          strLe_trans x.name y.name z.name hxy hyz) _
    · have hsub : ((l₁.filter (fun f => matchesCaptureName f.name)).map
          CaptureFile.name).Nodup :=
        List.Nodup.sublist ((List.filter_sublist l₁).map CaptureFile.name) hnd
      exact (((perm_sortByLe (fun f g => strLe f.name g.name)
        (l₁.filter (fun f => matchesCaptureName f.name))).map
          CaptureFile.name).nodup_iff).mpr hsub
  simp only [readRawCourses]
  rw [hkey]

/-- C8: the pipeline is a pure function of the capture-directory contents
and reads files in sorted name order, so its result does not depend on
the incidental order in which the directory listing presents the files:
two listings of the same files (distinct names, any order) produce
identical consolidated rows and identical metrics outputs, byte for byte.
Rerunning on an unchanged listing trivially reproduces the same output,
because the embedded pipeline is deterministic by construction. -/
theorem c8_pipeline_order_independent (l₁ l₂ : List CaptureFile)
    (weights : Option (List (String × ℚ))) (ref : Option (List (String × ℤ)))
    (hperm : l₁.Perm l₂) (hnd : (l₁.map CaptureFile.name).Nodup) :
    consolidateMain l₁ = consolidateMain l₂ ∧
      fullPipeline l₁ weights ref = fullPipeline l₂ weights ref := by
  have h := readRawCourses_perm_eq l₁ l₂ hperm hnd
  have hc : consolidateMain l₁ = consolidateMain l₂ := by
    simp only [consolidateMain]
    rw [h]
  refine ⟨hc, ?_⟩
  simp only [fullPipeline]
  rw [hc]

def c8FileA : CaptureFile :=
  ⟨"teeradar_page_0.json", some 100, some 0,
    [⟨some "A", some "Alpha", some "Austin", some "TX", some 4, some 2,
      some 30, none⟩]⟩

def c8FileB : CaptureFile :=
  ⟨"teeradar_page_100.json", some 200, some 100,
    [⟨some "B", some "Beta", some "Dallas", some "TX", some 5, some 7,
      some 50, none⟩]⟩

/-- Witness for c8_pipeline_order_independent: the same two capture files
presented in both orders. -/
theorem c8_pipeline_order_independent_witness :
    ([c8FileA, c8FileB].Perm [c8FileB, c8FileA] ∧
        ([c8FileA, c8FileB].map CaptureFile.name).Nodup) ∧
      (consolidateMain [c8FileA, c8FileB] = consolidateMain [c8FileB, c8FileA] ∧
        fullPipeline [c8FileA, c8FileB] none none =
          fullPipeline [c8FileB, c8FileA] none none) :=
  ⟨⟨List.Perm.swap c8FileB c8FileA [], by decide⟩,
    c8_pipeline_order_independent [c8FileA, c8FileB] [c8FileB, c8FileA]
      none none (List.Perm.swap c8FileB c8FileA []) (by decide)⟩
